import Mathlib

/-!
# Tasks page (`src/pages/Tasks.jsx`): task store, validation schema and handlers

A shallow embedding of the `Tasks` component: the values and objects that flow
through it, the `taskSchema` validation schema (lines 14-19), the component
state (`tasks`, `editingTask`, the form errors, the notifications fired) and the
three handlers `addTask`, `editTask`, `deleteTask` (lines 29-45), followed by
theorems about them.

Modelling conventions.

* A handler runs in the render that follows the previous state update, so the
  `tasks` it closes over is the current store; a run of the component is a
  sequence of handler invocations, each applied to the state left by the one
  before.
* `Date.now()` is an input of `addTask` (the clock reading `now`).
* Numbers are integers: the only numbers of this program are clock readings.
-/

namespace Tasks

/-! ## Values and objects -/

/-- JavaScript values that can occur in a form payload or in a task. A `Date`
is an object: `ref` is its identity and `time` its time value (`none` for an
invalid date). -/
inductive Value where
  | undefined
  | null
  | bool (b : Bool)
  | num (n : Int)
  | str (s : String)
  | date (ref : Nat) (time : Option Int)
  deriving DecidableEq, Repr

/-- The operator `===`: primitives are compared by value, `Date` objects by
identity. -/
def strictEq : Value → Value → Bool
  | .undefined, .undefined => true
  | .null, .null => true
  | .bool a, .bool b => a == b
  | .num a, .num b => a == b
  | .str a, .str b => a == b
  | .date r _, .date q _ => r == q
  | _, _ => false

/-- Property names that occur in the program: the four keys of `taskSchema` and
the `id` that `addTask` writes. -/
inductive Key where
  | id
  | title
  | description
  | dueDate
  | priority
  deriving DecidableEq, Repr

/-- A plain object over the keys of `Key`. A field is `none` when the object has
no such own property, and `some v` when it has one with value `v` (which may be
`undefined`). Properties under other names are dropped by `taskSchema` (a
`z.object` strips unknown keys) and are never read or written by the handlers,
so they are not represented. -/
structure Obj where
  id : Option Value := none
  title : Option Value := none
  description : Option Value := none
  dueDate : Option Value := none
  priority : Option Value := none
  deriving DecidableEq, Repr

/-- The own property of `o` under key `k`, if there is one. -/
def Obj.own (o : Obj) : Key → Option Value
  | .id => o.id
  | .title => o.title
  | .description => o.description
  | .dueDate => o.dueDate
  | .priority => o.priority

/-- Property read `o.k`: the value of the own property, `undefined` if absent. -/
def Obj.get (o : Obj) (k : Key) : Value :=
  match o.own k with
  | some v => v
  | none => .undefined

/-- One property of `{...a, ...b}`: the property of `b` if `b` has it, else the
property of `a`. -/
def over (fromB fromA : Option Value) : Option Value :=
  match fromB with
  | some v => some v
  | none => fromA

/-- Object spread `{...a, ...b}`. -/
def spread (a b : Obj) : Obj :=
  { id := over b.id a.id
    title := over b.title a.title
    description := over b.description a.description
    dueDate := over b.dueDate a.dueDate
    priority := over b.priority a.priority }

/-! ## The validation schema -/

/-- Issue codes of the validation library that `taskSchema` can raise. -/
inductive IssueCode where
  | invalid_type
  | too_small
  | invalid_date
  | invalid_enum_value
  deriving DecidableEq, Repr

/-- What a field validator reports: the issue code and the message given in the
schema (`none`: the library default text). -/
abbrev Fault := IssueCode × Option String

/-- A validation issue attached to a field. -/
structure Issue where
  path : Key
  code : IssueCode
  message : Option String
  deriving DecidableEq, Repr

/-- Validator `z.string().min(1, "Task title is required")` (line 15). -/
def titleField (v : Value) : Option Fault :=
  match v with
  | .str s => if s.length < 1 then some (.too_small, some "Task title is required") else none
  | _ => some (.invalid_type, none)

/-- Validator `z.string()` (line 16, under `.optional()`). -/
def zString (v : Value) : Option Fault :=
  match v with
  | .str _ => none
  | _ => some (.invalid_type, none)

/-- Validator `z.date()` (line 17, under `.optional()`): a `Date` whose time value
is a number. -/
def zDate (v : Value) : Option Fault :=
  match v with
  | .date _ (some _) => none
  | .date _ none => some (.invalid_date, none)
  | _ => some (.invalid_type, none)

/-- Validator `z.enum(["Low", "Medium", "High"])` (line 18, under `.optional()`). -/
def zEnum (v : Value) : Option Fault :=
  match v with
  | .str s => if s = "Low" ∨ s = "Medium" ∨ s = "High" then none else some (.invalid_enum_value, none)
  | _ => some (.invalid_type, none)

/-- Combinator `.optional()`: `undefined` is accepted, anything else goes to the
inner validator. -/
def optional (inner : Value → Option Fault) (v : Value) : Option Fault :=
  match v with
  | .undefined => none
  | w => inner w

/-- Issues raised for the field `k` of `raw` by validator `f`, which receives the
property read `raw.k`. -/
def checkField (raw : Obj) (k : Key) (f : Value → Option Fault) : List Issue :=
  match f (raw.get k) with
  | some (code, message) => [{ path := k, code := code, message := message }]
  | none => []

/-- Constant `taskSchema` (lines 14-19), as the parser it denotes. The fields are
checked in the order of the schema; no validator transforms its value, so on
success the output holds, for each key of the schema, the property of the
payload if the payload has it; every other property (an `id` included) is
stripped. -/
def taskSchema (raw : Obj) : Except (List Issue) Obj :=
  let issues :=
    checkField raw .title titleField
      ++ checkField raw .description (optional zString)
      ++ checkField raw .dueDate (optional zDate)
      ++ checkField raw .priority (optional zEnum)
  match issues with
  | [] => .ok { id := none
                title := raw.title
                description := raw.description
                dueDate := raw.dueDate
                priority := raw.priority }
  | i :: is => .error (i :: is)

/-- A validated input: the output of a successful `taskSchema` validation. -/
def Validated (data : Obj) : Prop :=
  ∃ raw, taskSchema raw = .ok data

/-- Executable test for `Validated`: validating the data again returns it. -/
def isValidated (data : Obj) : Bool :=
  match taskSchema data with
  | .ok out => out == data
  | .error _ => false

/-! ## Component state and handlers -/

/-- Errors a handler can throw. -/
inductive JsError where
  | typeError
  deriving DecidableEq, Repr

/-- State of the component: the `tasks` store and `editingTask` (line 22-23), the
form `errors` (line 25) and the notifications fired through `toast`, oldest
first. -/
structure State where
  tasks : List Obj := []
  editingTask : Option Obj := none
  errors : List Issue := []
  toasts : List String := []
  deriving DecidableEq, Repr

/-- State of a freshly mounted component: `useState([])`, `useState(null)`. -/
def initial : State := {}

/-- Handler `addTask` (lines 29-33), with `now` the value of `Date.now()`. The
call `reset()` clears the form errors. -/
def addTask (now : Int) (data : Obj) (s : State) : State :=
  { tasks := s.tasks ++ [{ data with id := some (.num now) }]
    editingTask := s.editingTask
    errors := []
    toasts := s.toasts ++ ["Task added successfully"] }

/-- Callback of the `map` in `editTask` (line 36). Reading `editingTask.id` throws
when `editingTask` is `null`. -/
def editOne (editingTask : Option Obj) (data : Obj) (task : Obj) : Except JsError Obj :=
  match editingTask with
  | none => .error .typeError
  | some target =>
    .ok (if strictEq (task.get .id) (target.get .id) then spread task data else task)

/-- Method `Array.prototype.map` over a callback that may throw: elements are
visited in order and the first throw aborts the call. -/
def mapThrowing (f : Obj → Except JsError Obj) : List Obj → Except JsError (List Obj)
  | [] => .ok []
  | x :: xs =>
    match f x with
    | .error e => .error e
    | .ok y =>
      match mapThrowing f xs with
      | .error e => .error e
      | .ok ys => .ok (y :: ys)

/-- Handler `editTask` (lines 35-40). -/
def editTask (data : Obj) (s : State) : Except JsError State :=
  match mapThrowing (editOne s.editingTask data) s.tasks with
  | .error e => .error e
  | .ok ts =>
    .ok { tasks := ts
          editingTask := none
          errors := []
          toasts := s.toasts ++ ["Task updated successfully"] }

/-- Handler `deleteTask` (lines 42-45). -/
def deleteTask (id : Value) (s : State) : State :=
  { tasks := s.tasks.filter (fun task => !strictEq (task.get .id) id)
    editingTask := s.editingTask
    errors := s.errors
    toasts := s.toasts ++ ["Task deleted successfully"] }

/-- Call `setEditingTask(task)` (line 109). -/
def setEditingTask (target : Option Obj) (s : State) : State :=
  { s with editingTask := target }

/-- Submit handler `handleSubmit(onValid)` of the form library with the resolver
`zodResolver(taskSchema)` (lines 25-27, 59, 115): the payload is validated; when
it passes, `onValid` receives the validated data; when it fails, `onValid` is not
called and the issues become the form errors. -/
def handleSubmit (onValid : Obj → State → Except JsError State) (raw : Obj) (s : State) :
    Except JsError State :=
  match taskSchema raw with
  | .ok data => onValid data s
  | .error issues => .ok { s with errors := issues }

/-- The error shown for a field (`errors.title` on lines 63 and 119): the first
issue recorded for it. -/
def fieldError (errors : List Issue) (k : Key) : Option Issue :=
  errors.find? (fun i => i.path = k)

/-! ## Runs of the component -/

/-- One handler invocation. -/
inductive Action where
  | addTask (now : Int) (data : Obj)
  | setEditingTask (target : Option Obj)
  | editTask (data : Obj)
  | deleteTask (id : Value)
  deriving DecidableEq, Repr

/-- Effect of one invocation. A handler that throws has not reached its
`setTasks` call, so the state stays as it was. -/
def step (s : State) : Action → State
  | .addTask now data => addTask now data s
  | .setEditingTask target => setEditingTask target s
  | .editTask data =>
    match editTask data s with
    | .ok s' => s'
    | .error _ => s
  | .deleteTask id => deleteTask id s

/-- Effect of a sequence of invocations, first to last. -/
def run (s : State) (actions : List Action) : State :=
  actions.foldl step s

/-- The clock readings taken by the `addTask` invocations of a run, in order. -/
def clockReadings : List Action → List Int
  | [] => []
  | .addTask now _ :: rest => now :: clockReadings rest
  | _ :: rest => clockReadings rest

/-- The data handed to the `addTask` invocations of a run. -/
def addPayloads : List Action → List Obj
  | [] => []
  | .addTask _ data :: rest => data :: addPayloads rest
  | _ :: rest => addPayloads rest

/-- The data handed to the `editTask` invocations of a run. -/
def editPayloads : List Action → List Obj
  | [] => []
  | .editTask data :: rest => data :: editPayloads rest
  | _ :: rest => editPayloads rest

/-! ## Payload shapes used in the statements -/

/-- A field that is absent (no property, or the value `undefined`) or holds a
value of the shape `p`. -/
def absentOr (p : Value → Bool) : Option Value → Bool
  | none => true
  | some .undefined => true
  | some v => p v

/-- A text value. -/
def isText : Value → Bool
  | .str _ => true
  | _ => false

/-- A calendar date: a `Date` with a time value. -/
def isCalendarDate : Value → Bool
  | .date _ (some _) => true
  | _ => false

/-- One of the three priority levels. -/
def isPriority : Value → Bool
  | .str s => s == "Low" || s == "Medium" || s == "High"
  | _ => false

/-- Sample payloads of the scenarios: a title and nothing else. -/
def titled (t : String) : Obj := { title := some (.str t) }

/-! ## Basic facts -/

theorem strictEq_self (v : Value) : strictEq v v = true := by
  cases v <;> simp [strictEq]

theorem validated_shape {data : Obj} (h : Validated data) :
    data.id = none ∧ ∃ t, data.title = some (.str t) ∧ 1 ≤ t.length := by
  obtain ⟨raw, hraw⟩ := h
  unfold taskSchema at hraw
  simp only at hraw
  split at hraw
  · rename_i hnil
    injection hraw with hdata
    subst hdata
    refine ⟨rfl, ?_⟩
    have h1 : checkField raw .title titleField = [] := by
      simp only [List.append_eq_nil] at hnil
      exact hnil.1.1.1
    unfold checkField at h1
    split at h1
    · simp at h1
    · rename_i hnone
      simp only [Obj.get, Obj.own] at hnone
      cases htitle : raw.title with
      | none => simp [htitle, titleField] at hnone
      | some v =>
        cases v <;> simp [htitle, titleField] at hnone
        rename_i t
        exact ⟨t, rfl, by omega⟩
  · cases hraw

/-- Validated data are the fixed points of `taskSchema`. -/
theorem validated_iff (data : Obj) : Validated data ↔ taskSchema data = .ok data := by
  constructor
  · rintro ⟨raw, hraw⟩
    unfold taskSchema at hraw ⊢
    simp only at hraw ⊢
    split at hraw
    · rename_i hnil
      injection hraw with hdata
      subst hdata
      simp only [checkField, Obj.get, Obj.own] at hnil ⊢
      rw [hnil]
    · cases hraw
  · intro h
    exact ⟨data, h⟩

theorem isValidated_iff (data : Obj) : isValidated data = true ↔ Validated data := by
  rw [validated_iff]
  unfold isValidated
  cases h : taskSchema data with
  | error e => simp
  | ok out => simp

theorem validated_title_get {data : Obj} (h : Validated data) :
    ∃ t, data.get .title = .str t ∧ 1 ≤ t.length := by
  obtain ⟨_, t, ht, hlen⟩ := validated_shape h
  exact ⟨t, by simp [Obj.get, Obj.own, ht], hlen⟩

theorem spread_id_of_absent (task data : Obj) (h : data.id = none) :
    (spread task data).id = task.id := by
  simp [spread, over, h]

theorem spread_get_id (task data : Obj) (h : data.id = none) :
    (spread task data).get .id = task.get .id := by
  simp [Obj.get, Obj.own, spread_id_of_absent task data h]

theorem spread_own_present (task data : Obj) (k : Key) (h : (data.own k).isSome) :
    (spread task data).own k = data.own k := by
  cases k <;> simp only [Obj.own, spread, over] at h ⊢ <;> split <;> simp_all

theorem spread_own_absent (task data : Obj) (k : Key) (h : data.own k = none) :
    (spread task data).own k = task.own k := by
  cases k <;> simp only [Obj.own, spread, over] at h ⊢ <;> simp [h]

/-- The `map` of `editTask` with an editing target set never throws. -/
theorem mapThrowing_target (target data : Obj) (ts : List Obj) :
    mapThrowing (editOne (some target) data) ts
      = .ok (ts.map (fun task =>
          if strictEq (task.get .id) (target.get .id) then spread task data else task)) := by
  induction ts with
  | nil => rfl
  | cons x xs ih => simp [mapThrowing, editOne, ih]

/-- Without an editing target the `map` of `editTask` succeeds on the empty
store only. -/
theorem mapThrowing_null (data : Obj) (ts ts' : List Obj)
    (h : mapThrowing (editOne none data) ts = .ok ts') : ts = [] ∧ ts' = [] := by
  cases ts with
  | nil =>
    simp only [mapThrowing] at h
    injection h with h
    exact ⟨rfl, h.symm⟩
  | cons x xs => simp [mapThrowing, editOne] at h

theorem editTask_target (target data : Obj) (s : State) (h : s.editingTask = some target) :
    editTask data s
      = .ok { tasks := s.tasks.map (fun task =>
                if strictEq (task.get .id) (target.get .id) then spread task data else task)
              editingTask := none
              errors := []
              toasts := s.toasts ++ ["Task updated successfully"] } := by
  simp [editTask, h, mapThrowing_target]

/-- Whatever the editing target, a successful `editTask` returns a store that is
the old one mapped through a function that either spreads the data over a task
or keeps it. -/
theorem editTask_tasks (data : Obj) (s s' : State) (h : editTask data s = .ok s') :
    ∃ f : Obj → Obj, (∀ task, f task = spread task data ∨ f task = task) ∧
      s'.tasks = s.tasks.map f := by
  unfold editTask at h
  split at h
  · cases h
  · rename_i ts hts
    injection h with h
    subst h
    cases he : s.editingTask with
    | none =>
      rw [he] at hts
      obtain ⟨h1, h2⟩ := mapThrowing_null data _ _ hts
      exact ⟨fun task => task, fun _ => Or.inr rfl, by simp [h1, h2]⟩
    | some target =>
      rw [he, mapThrowing_target] at hts
      injection hts with hts
      refine ⟨fun task =>
        if strictEq (task.get .id) (target.get .id) then spread task data else task, ?_, hts.symm⟩
      intro task
      by_cases hc : strictEq (task.get .id) (target.get .id) = true <;> simp [hc]

/-! ## Adding a task -/

/-- C1: for every store, every clock reading and every validated input, `addTask`
yields the old store followed by exactly one new task: the length grows by one,
every earlier position holds the task it held before, and the title of the new,
last task is the title of the input, a text of at least one character. -/
theorem addTask_appends_one (s : State) (now : Int) (data : Obj) (h : Validated data) :
    (∃ task, (addTask now data s).tasks = s.tasks ++ [task] ∧
      (addTask now data s).tasks.getLast? = some task ∧
      task.get .title = data.get .title ∧
      ∃ t, task.get .title = .str t ∧ 1 ≤ t.length) ∧
    (addTask now data s).tasks.length = s.tasks.length + 1 ∧
    (∀ i, i < s.tasks.length → (addTask now data s).tasks[i]? = s.tasks[i]?) := by
  refine ⟨⟨{ data with id := some (.num now) }, rfl, ?_, rfl, ?_⟩, ?_, ?_⟩
  · simp [addTask]
  · obtain ⟨t, ht, hlen⟩ := validated_title_get h
    exact ⟨t, by simpa [Obj.get, Obj.own] using ht, hlen⟩
  · simp [addTask]
  · intro i hi
    simp [addTask, List.getElem?_append_left hi]

theorem addTask_appends_one_witness :
    Validated (titled "Write report") ∧
    (addTask 1700000000000 (titled "Write report") initial).tasks.length
      = initial.tasks.length + 1 :=
  ⟨⟨titled "Write report", rfl⟩,
   (addTask_appends_one initial 1700000000000 (titled "Write report")
      ⟨titled "Write report", rfl⟩).2.1⟩

/-! ## Editing a task -/

/-- C3: for every store, every task `t` in it and every validated input,
`editTask` with the editing target set to `t` succeeds and yields a store of the
same length in which every position keeps its `id` property, each position that
held `t` holds `{...t, ...data}` (whose properties are those of `data` where
`data` has one and those of `t` elsewhere), and every task whose id differs from
that of `t` stays in place unchanged. -/
theorem editTask_updates_target (s : State) (t data : Obj) (ht : t ∈ s.tasks)
    (hd : Validated data) :
    ∃ s', editTask data (setEditingTask (some t) s) = .ok s' ∧
      s'.tasks.length = s.tasks.length ∧
      (∀ i : Nat, (s'.tasks[i]?).map (fun task => task.id)
        = (s.tasks[i]?).map (fun task => task.id)) ∧
      (∃ i : Nat, s.tasks[i]? = some t) ∧
      (∀ i : Nat, s.tasks[i]? = some t → s'.tasks[i]? = some (spread t data)) ∧
      (∀ k, (data.own k).isSome → (spread t data).own k = data.own k) ∧
      (∀ k, data.own k = none → (spread t data).own k = t.own k) ∧
      (∀ (i : Nat) (task : Obj), s.tasks[i]? = some task →
        strictEq (task.get .id) (t.get .id) = false →
        s'.tasks[i]? = some task) := by
  have hid : data.id = none := (validated_shape hd).1
  refine ⟨_, editTask_target t data (setEditingTask (some t) s) rfl, ?_, ?_, ?_, ?_, ?_, ?_, ?_⟩
  · simp [setEditingTask]
  · intro i
    simp only [setEditingTask, List.getElem?_map, Option.map_map]
    cases s.tasks[i]? with
    | none => rfl
    | some task =>
      simp only [Option.map_some', Function.comp]
      split
      · rw [spread_id_of_absent task data hid]
      · rfl
  · exact List.getElem?_of_mem ht
  · intro i hi
    simp [setEditingTask, List.getElem?_map, hi, strictEq_self]
  · exact fun k hk => spread_own_present t data k hk
  · exact fun k hk => spread_own_absent t data k hk
  · intro i task hi hne
    simp [setEditingTask, List.getElem?_map, hi, hne]

/-- An edit on a store built by three `addTask` invocations with the distinct
clock readings 10, 20, 30: editing the second task with a new title and
a priority rewrites that task alone, which keeps its id and its description,
and leaves the first and the third task in place. -/
theorem editTask_updates_target_witness :
    ({ id := some (.num 20), title := some (.str "B"), description := some (.str "d") } : Obj)
      ∈ (run initial [.addTask 10 (titled "A"),
          .addTask 20 { title := some (.str "B"), description := some (.str "d") },
          .addTask 30 (titled "C")]).tasks ∧
    Validated { title := some (.str "B2"), priority := some (.str "High") } ∧
    ∃ s', editTask { title := some (.str "B2"), priority := some (.str "High") }
        (setEditingTask
          (some { id := some (.num 20), title := some (.str "B"), description := some (.str "d") })
          (run initial [.addTask 10 (titled "A"),
          .addTask 20 { title := some (.str "B"), description := some (.str "d") },
          .addTask 30 (titled "C")]))
          = .ok s' ∧
      s'.tasks.length = 3 ∧
      s'.tasks[1]? = some { id := some (.num 20)
                            title := some (.str "B2")
                            description := some (.str "d")
                            priority := some (.str "High") } ∧
      s'.tasks[0]? = some { id := some (.num 10), title := some (.str "A") } ∧
      s'.tasks[2]? = some { id := some (.num 30), title := some (.str "C") } ∧
      (s'.tasks[1]?).map (fun task => task.id) = some (some (.num 20)) := by
  refine ⟨by decide, ⟨{ title := some (.str "B2"), priority := some (.str "High") }, rfl⟩, ?_⟩
  obtain ⟨s', h1, h2, h3, _, h5, _, _, h8⟩ :=
    editTask_updates_target
      (run initial [.addTask 10 (titled "A"),
          .addTask 20 { title := some (.str "B"), description := some (.str "d") },
          .addTask 30 (titled "C")])
      { id := some (.num 20), title := some (.str "B"), description := some (.str "d") }
      { title := some (.str "B2"), priority := some (.str "High") }
      (by decide) ⟨{ title := some (.str "B2"), priority := some (.str "High") }, rfl⟩
  exact ⟨s', h1, h2.trans rfl, (h5 1 rfl).trans rfl, h8 0 _ rfl rfl, h8 2 _ rfl rfl,
    (h3 1).trans rfl⟩

/-- C8: for every store and every input, `editTask` with an editing target whose
id matches the id of no task in the store succeeds and leaves the store as it
was: the same tasks in the same order, hence the same length. -/
theorem editTask_unmatched_target (s : State) (target data : Obj)
    (h : ∀ task ∈ s.tasks, strictEq (task.get .id) (target.get .id) = false) :
    ∃ s', editTask data (setEditingTask (some target) s) = .ok s' ∧
      s'.tasks = s.tasks ∧ s'.tasks.length = s.tasks.length := by
  have hmap : s.tasks.map (fun task =>
      if strictEq (task.get .id) (target.get .id) then spread task data else task) = s.tasks := by
    conv_rhs => rw [← List.map_id s.tasks]
    apply List.map_congr_left
    intro task htask
    simp [h task htask]
  refine ⟨_, editTask_target target data (setEditingTask (some target) s) rfl, ?_, ?_⟩
  · simpa [setEditingTask] using hmap
  · simp [setEditingTask]

theorem editTask_unmatched_target_witness :
    (∀ task ∈ (addTask 5 (titled "A") initial).tasks,
      strictEq (task.get .id) (Obj.get { id := some (.num 7) } .id) = false) ∧
    ∃ s', editTask (titled "Z")
        (setEditingTask (some { id := some (.num 7) }) (addTask 5 (titled "A") initial)) = .ok s' ∧
      s'.tasks = (addTask 5 (titled "A") initial).tasks ∧
      s'.tasks.length = (addTask 5 (titled "A") initial).tasks.length :=
  ⟨by decide,
   editTask_unmatched_target (addTask 5 (titled "A") initial) { id := some (.num 7) }
     (titled "Z") (by decide)⟩

/-! ## Deleting a task -/

/-- C9: `deleteTask` is idempotent on the store: for every state and every id,
deleting the id twice in a row leaves the same store as deleting it once. -/
theorem deleteTask_idempotent (s : State) (id : Value) :
    (deleteTask id (deleteTask id s)).tasks = (deleteTask id s).tasks := by
  simp [deleteTask, List.filter_filter]

/-! ## Validation at the form boundary -/

/-- C6: a submission of the add form whose title is the empty text fails
validation: the handler passed to `handleSubmit` is not invoked (the outcome is
the same for every handler), the store and the notifications stay as they were,
and the error recorded for the title field carries the message
"Task title is required". And every payload whose title is a text of length at
least 1, with each other field absent or of its declared shape, passes
validation, and its handler is invoked with the validated data. -/
theorem empty_title_rejected :
    (∀ (s : State) (now : Int) (raw : Obj), raw.title = some (.str "") →
      ∃ s', handleSubmit (fun data st => .ok (addTask now data st)) raw s = .ok s' ∧
        s'.tasks = s.tasks ∧ s'.toasts = s.toasts ∧
        fieldError s'.errors .title
          = some { path := .title, code := .too_small, message := some "Task title is required" } ∧
        ∀ onValid, handleSubmit onValid raw s = .ok s') ∧
    (∀ (raw : Obj) (t : String), raw.title = some (.str t) → 1 ≤ t.length →
      absentOr isText raw.description = true →
      absentOr isCalendarDate raw.dueDate = true →
      absentOr isPriority raw.priority = true →
      ∃ data, taskSchema raw = .ok data ∧ data.get .title = .str t ∧
        ∀ onValid s, handleSubmit onValid raw s = onValid data s) := by
  constructor
  · intro s now raw h
    have hs : ∃ rest, taskSchema raw
        = .error ({ path := .title, code := .too_small,
                    message := some "Task title is required" } :: rest) := by
      simp [taskSchema, checkField, Obj.get, Obj.own, h, titleField]
    obtain ⟨rest, hrest⟩ := hs
    refine ⟨{ s with errors := { path := .title, code := .too_small,
                                 message := some "Task title is required" } :: rest },
      ?_, rfl, rfl, ?_, ?_⟩
    · simp only [handleSubmit, hrest]
    · simp [fieldError]
    · intro onValid
      simp only [handleSubmit, hrest]
  · intro raw t ht hlen hdesc hdue hprio
    have hlen' : ¬ t.length < 1 := by omega
    have h1 : checkField raw .title titleField = [] := by
      simp [checkField, Obj.get, Obj.own, ht, titleField, hlen']
    have h2 : checkField raw .description (optional zString) = [] := by
      rcases raw with ⟨_, _, d, _, _⟩
      rcases d with _ | v
      · simp [checkField, Obj.get, Obj.own, optional]
      · cases v <;> simp_all [checkField, Obj.get, Obj.own, optional, zString, absentOr, isText]
    have h3 : checkField raw .dueDate (optional zDate) = [] := by
      rcases raw with ⟨_, _, _, d, _⟩
      rcases d with _ | v
      · simp [checkField, Obj.get, Obj.own, optional]
      · cases v with
        | date r time =>
          cases time <;>
            simp_all [checkField, Obj.get, Obj.own, optional, zDate, absentOr, isCalendarDate]
        | _ => simp_all [checkField, Obj.get, Obj.own, optional, zDate, absentOr, isCalendarDate]
    have h4 : checkField raw .priority (optional zEnum) = [] := by
      rcases raw with ⟨_, _, _, _, d⟩
      rcases d with _ | v
      · simp [checkField, Obj.get, Obj.own, optional]
      · cases v with
        | str p =>
          have hp : p = "Low" ∨ p = "Medium" ∨ p = "High" := by
            simpa [absentOr, isPriority, or_assoc] using hprio
          simp [checkField, Obj.get, Obj.own, optional, zEnum, hp]
        | _ => simp_all [checkField, Obj.get, Obj.own, optional, zEnum, absentOr, isPriority]
    have hok : taskSchema raw
        = .ok { id := none
                title := raw.title
                description := raw.description
                dueDate := raw.dueDate
                priority := raw.priority } := by
      simp [taskSchema, h1, h2, h3, h4]
    refine ⟨_, hok, ?_, ?_⟩
    · simp [Obj.get, Obj.own, ht]
    · intro onValid s
      simp only [handleSubmit, hok]

theorem empty_title_rejected_witness :
    (∃ s', handleSubmit (fun data st => .ok (addTask 42 data st)) (titled "")
        (addTask 7 (titled "A") initial) = .ok s' ∧
      s'.tasks = (addTask 7 (titled "A") initial).tasks ∧
      s'.toasts = (addTask 7 (titled "A") initial).toasts) ∧
    ∃ data, taskSchema { title := some (.str "Write report"), priority := some (.str "High") }
      = .ok data :=
  ⟨(empty_title_rejected.1 (addTask 7 (titled "A") initial) 42 (titled "") rfl).imp
      (fun _ h => ⟨h.1, h.2.1, h.2.2.1⟩),
   (empty_title_rejected.2 { title := some (.str "Write report"), priority := some (.str "High") }
      "Write report" rfl (by decide) rfl rfl rfl).imp (fun _ h => h.1)⟩

/-! ## Invariants of the runs -/

theorem addPayloads_cons (a : Action) (rest : List Action) :
    addPayloads (a :: rest) = addPayloads [a] ++ addPayloads rest := by
  cases a <;> simp [addPayloads]

theorem editPayloads_cons (a : Action) (rest : List Action) :
    editPayloads (a :: rest) = editPayloads [a] ++ editPayloads rest := by
  cases a <;> simp [editPayloads]

theorem clockReadings_cons (a : Action) (rest : List Action) :
    clockReadings (a :: rest) = clockReadings [a] ++ clockReadings rest := by
  cases a <;> simp [clockReadings]

theorem spread_get_title (task data : Obj) (h : Validated data) :
    (spread task data).get .title = data.get .title := by
  obtain ⟨_, t, ht, _⟩ := validated_shape h
  simp [Obj.get, Obj.own, spread, over, ht]

/-- One handler invocation with validated data keeps every stored title a text of
at least one character. -/
theorem step_titles (s : State) (a : Action)
    (hs : ∀ task ∈ s.tasks, ∃ t, task.get .title = .str t ∧ 1 ≤ t.length)
    (hadd : ∀ d ∈ addPayloads [a], Validated d)
    (hedit : ∀ d ∈ editPayloads [a], Validated d) :
    ∀ task ∈ (step s a).tasks, ∃ t, task.get .title = .str t ∧ 1 ≤ t.length := by
  cases a with
  | addTask now data =>
    have hv : Validated data := hadd data (by simp [addPayloads])
    intro task htask
    simp only [step, addTask, List.mem_append, List.mem_singleton] at htask
    rcases htask with h | h
    · exact hs task h
    · obtain ⟨t, ht, hlen⟩ := validated_title_get hv
      subst h
      exact ⟨t, by simpa [Obj.get, Obj.own] using ht, hlen⟩
  | setEditingTask target => exact hs
  | editTask data =>
    have hv : Validated data := hedit data (by simp [editPayloads])
    intro task htask
    simp only [step] at htask
    cases he : editTask data s with
    | error e =>
      rw [he] at htask
      exact hs task htask
    | ok s' =>
      rw [he] at htask
      obtain ⟨f, hf, hmap⟩ := editTask_tasks data s s' he
      simp only [hmap, List.mem_map] at htask
      obtain ⟨x, hx, hfx⟩ := htask
      rcases hf x with h | h
      · obtain ⟨t, ht, hlen⟩ := validated_title_get hv
        refine ⟨t, ?_, hlen⟩
        rw [← hfx, h, spread_get_title x data hv, ht]
      · rw [← hfx, h]
        exact hs x hx
  | deleteTask id =>
    intro task htask
    simp only [step, deleteTask, List.mem_filter] at htask
    exact hs task htask.1

theorem run_titles (actions : List Action) :
    ∀ s : State, (∀ task ∈ s.tasks, ∃ t, task.get .title = .str t ∧ 1 ≤ t.length) →
      (∀ d ∈ addPayloads actions, Validated d) →
      (∀ d ∈ editPayloads actions, Validated d) →
      ∀ task ∈ (run s actions).tasks, ∃ t, task.get .title = .str t ∧ 1 ≤ t.length := by
  induction actions with
  | nil => intro s hs _ _; exact hs
  | cons a rest ih =>
    intro s hs hadd hedit
    rw [addPayloads_cons] at hadd
    rw [editPayloads_cons] at hedit
    have h1 := step_titles s a hs
      (fun d hd => hadd d (List.mem_append_left _ hd))
      (fun d hd => hedit d (List.mem_append_left _ hd))
    exact ih (step s a) h1
      (fun d hd => hadd d (List.mem_append_right _ hd))
      (fun d hd => hedit d (List.mem_append_right _ hd))

/-- C7: the title of a stored task is never empty: after any sequence of
`addTask` and `editTask` invocations whose data passed `taskSchema`, of
`setEditingTask` calls and of `deleteTask` invocations, started on the empty
store, the title of every task in the store is a text of length at least 1. -/
theorem stored_titles_never_empty (actions : List Action)
    (hadd : ∀ d ∈ addPayloads actions, Validated d)
    (hedit : ∀ d ∈ editPayloads actions, Validated d) :
    ∀ task ∈ (run initial actions).tasks, ∃ t, task.get .title = .str t ∧ 1 ≤ t.length :=
  run_titles actions initial (by simp [initial]) hadd hedit

theorem stored_titles_never_empty_witness :
    { id := some (.num 10), title := some (.str "A2") }
      ∈ (run initial [.addTask 10 (titled "A"), .addTask 20 (titled "B"),
          .setEditingTask (some { id := some (.num 10), title := some (.str "A") }),
          .editTask (titled "A2"), .deleteTask (.num 20)]).tasks ∧
    ∃ t, Obj.get { id := some (.num 10), title := some (.str "A2") } .title = .str t ∧
      1 ≤ t.length :=
  ⟨by decide,
   stored_titles_never_empty [.addTask 10 (titled "A"), .addTask 20 (titled "B"),
      .setEditingTask (some { id := some (.num 10), title := some (.str "A") }),
      .editTask (titled "A2"), .deleteTask (.num 20)]
    (by
      intro d hd
      simp only [addPayloads, List.mem_cons, List.mem_singleton, List.not_mem_nil, or_false] at hd
      rcases hd with h | h <;> subst h
      · exact ⟨titled "A", rfl⟩
      · exact ⟨titled "B", rfl⟩)
    (by
      intro d hd
      simp only [editPayloads, List.mem_singleton] at hd
      subst hd
      exact ⟨titled "A2", rfl⟩)
    { id := some (.num 10), title := some (.str "A2") } (by decide)⟩

/-- Filtering a store whose ids are the numbers `ids` leaves a store whose ids
are a sublist of `ids`. -/
theorem filter_ids (p : Obj → Bool) :
    ∀ (ts : List Obj) (ids : List Int),
      ts.map (fun task => task.get .id) = ids.map Value.num →
      ∃ ids' : List Int, ids'.Sublist ids ∧
        (ts.filter p).map (fun task => task.get .id) = ids'.map Value.num := by
  intro ts
  induction ts with
  | nil => intro ids _; exact ⟨[], List.nil_sublist ids, rfl⟩
  | cons x xs ih =>
    intro ids h
    cases ids with
    | nil => simp at h
    | cons n ns =>
      simp only [List.map_cons, List.cons.injEq] at h
      obtain ⟨ids', hsub, hmap⟩ := ih ns h.2
      by_cases hp : p x = true
      · refine ⟨n :: ids', hsub.cons₂ n, ?_⟩
        simp [List.filter_cons, hp, h.1, hmap]
      · refine ⟨ids', hsub.cons n, ?_⟩
        simp [List.filter_cons, hp, hmap]

/-- One handler invocation keeps the ids of the store numbers in strictly
increasing order, provided the clock reading of an `addTask` exceeds every id
in the store and the data of an `editTask` is validated. -/
theorem step_ids (s : State) (a : Action) (ids : List Int)
    (hids : s.tasks.map (fun task => task.get .id) = ids.map Value.num)
    (hinc : ids.Pairwise (· < ·))
    (hbelow : ∀ i ∈ ids, ∀ c ∈ clockReadings [a], i < c)
    (hedit : ∀ d ∈ editPayloads [a], Validated d) :
    ∃ ids' : List Int, (step s a).tasks.map (fun task => task.get .id) = ids'.map Value.num ∧
      ids'.Pairwise (· < ·) ∧ ∀ i ∈ ids', i ∈ ids ∨ i ∈ clockReadings [a] := by
  cases a with
  | addTask now data =>
    refine ⟨ids ++ [now], ?_, ?_, ?_⟩
    · simp only [step, addTask, List.map_append, hids, List.map_cons, List.map_nil]
      simp [Obj.get, Obj.own]
    · rw [List.pairwise_append]
      refine ⟨hinc, List.pairwise_singleton _ _, ?_⟩
      intro i hi c hc
      exact hbelow i hi c (by simpa [clockReadings] using hc)
    · intro i hi
      simpa [clockReadings] using hi
  | setEditingTask target =>
    exact ⟨ids, hids, hinc, fun i hi => Or.inl hi⟩
  | editTask data =>
    have hv : Validated data := hedit data (by simp [editPayloads])
    have hid : data.id = none := (validated_shape hv).1
    refine ⟨ids, ?_, hinc, fun i hi => Or.inl hi⟩
    simp only [step]
    cases he : editTask data s with
    | error e => exact hids
    | ok s' =>
      obtain ⟨f, hf, hmap⟩ := editTask_tasks data s s' he
      simp only [hmap, List.map_map]
      rw [← hids]
      apply List.map_congr_left
      intro x _
      rcases hf x with h | h
      · simp [Function.comp, h, spread_get_id x data hid]
      · simp [Function.comp, h]
  | deleteTask id =>
    obtain ⟨ids', hsub, hmap⟩ :=
      filter_ids (fun task => !strictEq (task.get .id) id) s.tasks ids hids
    exact ⟨ids', hmap, hinc.sublist hsub, fun i hi => Or.inl (hsub.subset hi)⟩

theorem run_ids (actions : List Action) :
    ∀ (s : State) (ids : List Int),
      s.tasks.map (fun task => task.get .id) = ids.map Value.num →
      ids.Pairwise (· < ·) →
      (∀ i ∈ ids, ∀ c ∈ clockReadings actions, i < c) →
      (clockReadings actions).Pairwise (· < ·) →
      (∀ d ∈ editPayloads actions, Validated d) →
      ∃ ids' : List Int, (run s actions).tasks.map (fun task => task.get .id) = ids'.map Value.num ∧
        ids'.Pairwise (· < ·) := by
  induction actions with
  | nil => intro s ids hids hinc _ _ _; exact ⟨ids, hids, hinc⟩
  | cons a rest ih =>
    intro s ids hids hinc hbelow hclock hedit
    rw [clockReadings_cons] at hbelow hclock
    rw [editPayloads_cons] at hedit
    rw [List.pairwise_append] at hclock
    obtain ⟨ids', hids', hinc', hfrom⟩ := step_ids s a ids hids hinc
      (fun i hi c hc => hbelow i hi c (List.mem_append_left _ hc))
      (fun d hd => hedit d (List.mem_append_left _ hd))
    refine ih (step s a) ids' hids' hinc' ?_ hclock.2.1
      (fun d hd => hedit d (List.mem_append_right _ hd))
    intro i hi c hc
    rcases hfrom i hi with h | h
    · exact hbelow i h c (List.mem_append_right _ hc)
    · exact hclock.2.2 i h c hc

/-- C10: when every `addTask` of a run reads a clock value strictly greater than
the value read by every earlier `addTask`, and the data of every `editTask` is
validated (so carries no `id`), the ids of the store reached from the empty
store are numbers that increase strictly in store order, hence are pairwise
distinct. And the id of an added task is the clock value, whatever `id` the
data carries. -/
theorem ids_strictly_increasing (actions : List Action)
    (hclock : (clockReadings actions).Pairwise (· < ·))
    (hedit : ∀ d ∈ editPayloads actions, Validated d) :
    (∃ ids : List Int,
      (run initial actions).tasks.map (fun task => task.get .id) = ids.map Value.num ∧
      ids.Pairwise (· < ·)) ∧
    ((run initial actions).tasks.map (fun task => task.get .id)).Nodup ∧
    (∀ (s : State) (now : Int) (data : Obj),
      ((addTask now data s).tasks.getLast?).map (fun task => task.get .id)
        = some (.num now)) := by
  obtain ⟨ids, hids, hinc⟩ := run_ids actions initial [] (by simp [initial])
    List.Pairwise.nil (by simp) hclock hedit
  refine ⟨⟨ids, hids, hinc⟩, ?_, ?_⟩
  · rw [hids]
    have hnodup : ids.Nodup := hinc.imp (fun h => ne_of_lt h)
    exact hnodup.map (fun a b h => by injection h)
  · intro s now data
    simp [addTask, Obj.get, Obj.own]

theorem ids_strictly_increasing_witness :
    (clockReadings [.addTask 10 { id := some (.num 99), title := some (.str "A") },
      .addTask 20 (titled "B"),
      .setEditingTask (some { id := some (.num 10), title := some (.str "A") }),
      .editTask (titled "A2"), .addTask 30 (titled "C"),
      .deleteTask (.num 20)]).Pairwise (· < ·) ∧
    ((run initial [.addTask 10 { id := some (.num 99), title := some (.str "A") },
      .addTask 20 (titled "B"),
      .setEditingTask (some { id := some (.num 10), title := some (.str "A") }),
      .editTask (titled "A2"), .addTask 30 (titled "C"),
      .deleteTask (.num 20)]).tasks.map (fun task => task.get .id)).Nodup :=
  ⟨by decide,
   (ids_strictly_increasing
      [.addTask 10 { id := some (.num 99), title := some (.str "A") },
       .addTask 20 (titled "B"),
       .setEditingTask (some { id := some (.num 10), title := some (.str "A") }),
       .editTask (titled "A2"), .addTask 30 (titled "C"),
       .deleteTask (.num 20)]
      (by decide)
      (by
        intro d hd
        simp only [editPayloads, List.mem_singleton] at hd
        subst hd
        exact ⟨titled "A2", rfl⟩)).2.1⟩

/-! ## Two tasks created on the same clock reading

`addTask` takes the id of the new task from `Date.now()` (line 30), and nothing
keeps two invocations from reading the same value. The store then holds two
tasks under one id, while the list is keyed by `task.id` (line 99) and
`editTask` and `deleteTask` select by id (lines 36 and 43): an edit or a delete
aimed at one of the two tasks reaches both. -/

/-- C2: two `addTask` invocations with validated data that read the same clock
value 1000 leave a store whose tasks at positions 0 and 1 both have id 1000: the
ids of this reachable store are not pairwise distinct. -/
theorem same_reading_duplicates_id :
    Validated (titled "A") ∧ Validated (titled "B") ∧
    (run initial [.addTask 1000 (titled "A"), .addTask 1000 (titled "B")]).tasks.map
        (fun task => task.get .id) = [.num 1000, .num 1000] ∧
    ¬ ((run initial [.addTask 1000 (titled "A"), .addTask 1000 (titled "B")]).tasks.map
        (fun task => task.get .id)).Nodup :=
  ⟨⟨titled "A", rfl⟩, ⟨titled "B", rfl⟩, rfl, by decide⟩

/-- C4: on the store left by two `addTask` invocations that read the same clock
value 1000, `deleteTask(1000)` removes both tasks: the length drops from 2 to 0,
not by exactly one. -/
theorem deleteTask_removes_both_duplicates :
    (run initial [.addTask 1000 (titled "A"), .addTask 1000 (titled "B")]).tasks.length = 2 ∧
    (deleteTask (.num 1000)
      (run initial [.addTask 1000 (titled "A"), .addTask 1000 (titled "B")])).tasks = [] ∧
    (deleteTask (.num 1000)
      (run initial [.addTask 1000 (titled "A"), .addTask 1000 (titled "B")])).tasks.length = 0 :=
  ⟨rfl, by decide, by decide⟩

/-- C5: when both `addTask` invocations of the scenario read the clock value
1000, the edit of the first task to the title "A2" rewrites the second task as
well: the titles of the resulting store are "A2" and "A2", not "A2" and "B". -/
theorem scenario_same_reading_edits_both :
    (run initial [.addTask 1000 (titled "A"), .addTask 1000 (titled "B")]).tasks.head?
      = some { id := some (.num 1000), title := some (.str "A") } ∧
    (run initial [.addTask 1000 (titled "A"), .addTask 1000 (titled "B"),
        .setEditingTask (some { id := some (.num 1000), title := some (.str "A") }),
        .editTask (titled "A2")]).tasks.map (fun task => task.get .title)
      = [.str "A2", .str "A2"] :=
  ⟨rfl, by decide⟩

/-! ## Deleting and editing on stores with distinct ids -/

theorem strictEq_common (a b c : Value) (h1 : strictEq a c = true) (h2 : strictEq b c = true) :
    strictEq a b = true := by
  cases a <;> cases c <;> simp [strictEq] at h1 <;>
    cases b <;> simp [strictEq] at h2 ⊢ <;> simp_all

/-- The remaining tasks keep their relative order. -/
theorem deleteTask_sublist (s : State) (id : Value) :
    (deleteTask id s).tasks.Sublist s.tasks := by
  simp only [deleteTask]
  exact List.filter_sublist s.tasks

/-- Deleting an id that no task has leaves the store as it was. -/
theorem deleteTask_absent (s : State) (id : Value)
    (h : ∀ task ∈ s.tasks, strictEq (task.get .id) id = false) :
    (deleteTask id s).tasks = s.tasks := by
  simp only [deleteTask]
  rw [List.filter_eq_self]
  intro task htask
  simp [h task htask]

theorem filter_removes_one (id : Value) :
    ∀ ts : List Obj,
      ts.Pairwise (fun a b => strictEq (a.get .id) (b.get .id) = false) →
      (∃ task ∈ ts, strictEq (task.get .id) id = true) →
      (ts.filter (fun task => !strictEq (task.get .id) id)).length + 1 = ts.length := by
  intro ts
  induction ts with
  | nil => intro _ h; simp at h
  | cons x xs ih =>
    intro hpair hex
    rw [List.pairwise_cons] at hpair
    by_cases hx : strictEq (x.get .id) id = true
    · have hrest : xs.filter (fun task => !strictEq (task.get .id) id) = xs := by
        rw [List.filter_eq_self]
        intro y hy
        cases hy' : strictEq (y.get .id) id with
        | false => rfl
        | true =>
          have := strictEq_common _ _ _ hx hy'
          rw [hpair.1 y hy] at this
          cases this
      simp [List.filter_cons, hx, hrest]
    · have hx' : strictEq (x.get .id) id = false := by simpa using hx
      obtain ⟨task, htask, hmatch⟩ := hex
      rcases List.mem_cons.1 htask with h | h
      · rw [h, hx'] at hmatch
        cases hmatch
      · have := ih hpair.2 ⟨task, h, hmatch⟩
        simp [List.filter_cons, hx', this]

/-- On a store whose ids differ pairwise under `===`, deleting the id of a stored
task removes exactly one task. -/
theorem deleteTask_removes_one (s : State) (id : Value)
    (hdistinct : s.tasks.Pairwise (fun a b => strictEq (a.get .id) (b.get .id) = false))
    (hex : ∃ task ∈ s.tasks, strictEq (task.get .id) id = true) :
    (deleteTask id s).tasks.length + 1 = s.tasks.length := by
  simp only [deleteTask]
  exact filter_removes_one id s.tasks hdistinct hex

/-- The scenario of two adds and an edit of the first task, when the two adds
read different clock values: the titles of the resulting store are "A2", "B". -/
theorem scenario_distinct_readings (n1 n2 : Int) (h : n1 ≠ n2) :
    (run initial [.addTask n1 (titled "A"), .addTask n2 (titled "B")]).tasks.head?
      = some { id := some (.num n1), title := some (.str "A") } ∧
    (run initial [.addTask n1 (titled "A"), .addTask n2 (titled "B"),
        .setEditingTask (some { id := some (.num n1), title := some (.str "A") }),
        .editTask (titled "A2")]).tasks.map (fun task => task.get .title)
      = [.str "A2", .str "B"] := by
  have h' : ¬ n2 = n1 := fun e => h e.symm
  constructor
  · rfl
  · simp [run, step, initial, addTask, setEditingTask, editTask, mapThrowing, editOne,
      strictEq, spread, over, titled, Obj.get, Obj.own, h']

end Tasks
